import Mathlib

/-!
Verification of the prism-media container demuxers (Ogg page reader and
EBML/WebM tag walker) against their natural-language specification.

The development shallowly embeds the TypeScript sources:
  * `src/opus/OggDemuxer.ts`   — the Ogg page reader,
  * `src/opus/Opus.ts`         — the `WebmBaseDemuxer` EBML walker and the
                                 variable-length-integer helpers
                                 `vintLength` / `expandVint`,
  * the `WebmDemuxer._checkHead` hooks of the Opus and Vorbis variants.

Byte buffers are `List Nat` (each entry a byte 0..255 in well-formed inputs).
JavaScript `Buffer` reads are modelled explicitly: an out-of-range indexed
read `buffer[i]` yields `undefined`, which behaves as `0` in the bitwise
operations the sources apply to it, hence `byteAt` defaults to `0`.
JavaScript 32-bit wrapping of `<<` and `&` is modelled by `jsShl` / `jsAnd`.
-/

namespace Prism

/-- Byte buffers: JS `Buffer` modelled as a list of byte values. -/
abbrev Buf := List Nat

/-- Indexed read `buffer[i]`: out-of-range reads behave as `0` in the bitwise
contexts where the sources perform them. -/
def byteAt (b : Buf) (i : Nat) : Nat := b.getD i 0

/-- JS `buffer.slice(s, e)` for `0 ≤ s ≤ e` (the only way the sources call it):
clamps to the buffer, never fails. -/
def bslice (b : Buf) (s e : Nat) : Buf := (b.drop s).take (e - s)

/-- JS `buffer.slice(start, end)` with a possibly negative JS-number `end`:
a negative end counts from the end of the buffer, and an effective end at or
before `start` yields the empty buffer. -/
def jsSlice (b : Buf) (s : Nat) (e : Int) : Buf :=
  bslice b s (if e < 0 then ((b.length : Int) + e).toNat else e.toNat)

/-- JS `ToUint32`: value modulo `2^32` (arguments here are always integers). -/
def toUint32 (x : Int) : Nat := (x % (2 ^ 32 : Int)).toNat

/-- JS `ToInt32`: value modulo `2^32`, reinterpreted as a signed 32-bit value. -/
def toInt32 (x : Int) : Int :=
  let u := x % (2 ^ 32 : Int)
  if u < 2 ^ 31 then u else u - 2 ^ 32

/-- JS `a << b`: shift of `ToInt32 a` by `ToUint32 b mod 32`, wrapping to a
signed 32-bit result. -/
def jsShl (a b : Int) : Int := toInt32 (a * 2 ^ (toUint32 b % 32))

/-- JS `a & b`: bitwise and of the 32-bit patterns, signed 32-bit result. -/
def jsAnd (a b : Int) : Int := toInt32 (Int.ofNat (Nat.land (toUint32 a) (toUint32 b)))

/-! ## Variable-length integers (`vintLength` / `expandVint` in `Opus.ts`) -/

/-- Loop index `i` after the bit-scan loop of `vintLength`: the first `i < 8`
with bit `7 - i` of the first byte set, or `8` when no bit is set. -/
def vintScan (b : Nat) : Nat :=
  ((List.range 8).find? (fun j => Nat.testBit b (7 - j))).getD 8

/-- Embeds `vintLength(buffer, index)`; `none` is the `TOO_SHORT` sentinel. -/
def vintLength (buffer : Buf) (index : Nat) : Option Nat :=
  let i := vintScan (byteAt buffer index) + 1
  if index + i > buffer.length then none else some i

/-- Embeds `expandVint(buffer, start, end)`; `none` is the `TOO_SHORT`
sentinel.  The value accumulation `(value << 8) + buffer[i]` uses the JS
32-bit shift, faithfully modelled by `jsShl`. -/
def expandVint (buffer : Buf) (start fin : Nat) : Option Int :=
  match vintLength buffer start with
  | none => none
  | some length =>
    if fin > buffer.length then none
    else
      some ((List.range' (start + 1) (fin - (start + 1))).foldl
        (fun v i => jsShl v 8 + (byteAt buffer i : Int))
        (jsAnd (byteAt buffer start) (jsShl 1 ((8 : Int) - (length : Int)) - 1)))

/-! Basic facts about the primitive reads. -/

theorem byteAt_append_left {b d : Buf} {i : Nat} (h : i < b.length) :
    byteAt (b ++ d) i = byteAt b i := by
  simp [byteAt, List.getD, List.getElem?_append_left h]

theorem byteAt_oob {b : Buf} {i : Nat} (h : b.length ≤ i) : byteAt b i = 0 := by
  simp [byteAt, List.getD, List.getElem?_eq_none h]

theorem bslice_append_left {b d : Buf} {s e : Nat} (h : e ≤ b.length) :
    bslice (b ++ d) s e = bslice b s e := by
  unfold bslice
  by_cases hse : s ≤ e
  · rw [List.drop_append_of_le_length (le_trans hse h),
      List.take_append_of_le_length (by rw [List.length_drop]; omega)]
  · have h0 : e - s = 0 := by omega
    rw [h0]
    simp

theorem bslice_length {b : Buf} {s e : Nat} (h : e ≤ b.length) (hse : s ≤ e) :
    (bslice b s e).length = e - s := by
  unfold bslice
  rw [List.length_take, List.length_drop]
  omega

/-- `vintLength` on an extended buffer: a successful read is stable. -/
theorem vintLength_append {b d : Buf} {i L : Nat} (h : vintLength b i = some L) :
    vintLength (b ++ d) i = some L := by
  unfold vintLength at h ⊢
  simp only at h ⊢
  split at h
  · exact absurd h (by simp)
  · rename_i hlen
    have hi : i < b.length := by
      by_contra hge
      push_neg at hge
      omega
    rw [byteAt_append_left hi]
    have : ¬ (i + (vintScan (byteAt b i) + 1) > (b ++ d).length) := by
      rw [List.length_append]; omega
    rw [if_neg this]
    exact h

/-- A successful `vintLength` never reaches outside the buffer. -/
theorem vintLength_le {b : Buf} {i L : Nat} (h : vintLength b i = some L) :
    i + L ≤ b.length := by
  unfold vintLength at h
  simp only at h
  split at h
  · exact absurd h (by simp)
  · rename_i hlen
    have : L = vintScan (byteAt b i) + 1 := by
      have := Option.some.inj h
      omega
    omega

theorem vintLength_pos {b : Buf} {i L : Nat} (h : vintLength b i = some L) : 1 ≤ L := by
  unfold vintLength at h
  simp only at h
  split at h
  · exact absurd h (by simp)
  · have := Option.some.inj h
    omega

/-- A successful `expandVint` never reaches outside the buffer. -/
theorem expandVint_le {b : Buf} {s e : Nat} {v : Int} (h : expandVint b s e = some v) :
    e ≤ b.length := by
  unfold expandVint at h
  split at h
  · exact absurd h (by simp)
  · split at h
    · exact absurd h (by simp)
    · omega

/-- Pointwise congruence for `List.foldl`. -/
theorem foldl_fn_congr {α β : Type} {f g : α → β → α} :
    ∀ (l : List β), (∀ v x, x ∈ l → f v x = g v x) → ∀ a, l.foldl f a = l.foldl g a := by
  intro l
  induction l with
  | nil => intro _ _; rfl
  | cons x xs ih =>
    intro h a
    simp only [List.foldl_cons]
    rw [h a x (by simp)]
    exact ih (fun v y hy => h v y (by simp [hy])) _

/-- Folds of the byte-accumulation function only depend on the bytes read. -/
theorem foldl_byte_ext {b b' : Buf} (l : List Nat) (v : Int)
    (h : ∀ i ∈ l, byteAt b i = byteAt b' i) :
    l.foldl (fun v i => jsShl v 8 + (byteAt b i : Int)) v =
    l.foldl (fun v i => jsShl v 8 + (byteAt b' i : Int)) v :=
  foldl_fn_congr l (fun v x hx => by rw [h x hx]) v

/-- `expandVint` on an extended buffer: a successful read is stable. -/
theorem expandVint_append {b d : Buf} {s e : Nat} {v : Int}
    (h : expandVint b s e = some v) : expandVint (b ++ d) s e = some v := by
  have he := expandVint_le h
  unfold expandVint at h ⊢
  split at h
  · exact absurd h (by simp)
  · rename_i L hL
    split
    · rename_i hL'
      rw [vintLength_append hL] at hL'
      cases hL'
    · rename_i L' hL'
      rw [vintLength_append hL] at hL'
      cases hL'
      have hs := vintLength_le hL
      split at h
      · exact absurd h (by simp)
      · rename_i hlen
        rw [if_neg (by rw [List.length_append]; omega)]
        have hL1 := vintLength_pos hL
        have hb : s < b.length := by omega
        rw [byteAt_append_left hb]
        rw [foldl_byte_ext _ _ (fun i hi => ?_)]
        · exact h
        · rw [List.mem_range'] at hi
          obtain ⟨k, hk, hik⟩ := hi
          apply byteAt_append_left
          omega

/-- The `'OggS'` capture pattern. -/
def OGGS_HEADER : Buf := [0x4f, 0x67, 0x67, 0x53]

/-- The `'OpusHead'` head signature (8 bytes). -/
def OPUS_HEAD : Buf := [0x4f, 0x70, 0x75, 0x73, 0x48, 0x65, 0x61, 0x64]

/-- The `OPUS_TAGS` constant of `OggDemuxer.ts`: `Buffer.from('OpusTag')` —
seven bytes, without a trailing `'s'`, exactly as in the source. -/
def OPUS_TAGS : Buf := [0x4f, 0x70, 0x75, 0x73, 0x54, 0x61, 0x67]

/-- Persistent state of an `OggDemuxer` apart from `_remainder`
(which the run functions thread separately). -/
structure OggState where
  head : Option Buf
  bitstream : Option Nat
deriving DecidableEq

/-- The initial state of a fresh `OggDemuxer`. -/
def initOgg : OggState := ⟨none, none⟩

/-- Observable outputs of the Ogg demuxer: `push`es and emitted events. -/
inductive OggEvent
  | head (seg : Buf)
  | tags (seg : Buf)
  | packet (seg : Buf)
  | unknownSegment (seg : Buf)
deriving DecidableEq

/-- Result of `_readPage`: `tooShort` is the `false` return, `err` a thrown
`Error`, and `page` a successfully consumed page together with the updated
state, the emitted events in order, and the returned excess slice. -/
inductive PageResult
  | tooShort
  | err (msg : String)
  | page (st : OggState) (evs : List OggEvent) (rest : Buf)
deriving DecidableEq

/-- JS `readUInt32BE` (callers guarantee the four bytes are in range). -/
def readUInt32BE (b : Buf) (i : Nat) : Nat :=
  byteAt b i * 0x1000000 + byteAt b (i + 1) * 0x10000 + byteAt b (i + 2) * 0x100 +
    byteAt b (i + 3)

/-- Reconstruction of the segment sizes from the lacing table: the source's
double loop accumulates `255`-entries until a terminator `< 255`; running off
the table mid-run is the `return false` case (`none` here). -/
def lacingTable : Buf → Option (List Nat)
  | [] => some []
  | x :: rest =>
    if x = 255 then
      match lacingTable rest with
      | some (s :: ss) => some ((255 + s) :: ss)
      | some [] => none
      | none => none
    else
      match lacingTable rest with
      | some ss => some (x :: ss)
      | none => none

/-- The per-segment classification loop of `_readPage` (lines 90-108):
walks the reconstructed sizes, slicing each segment, producing events and the
updated state, and returning the final `start` cursor. -/
def processSegs (bitstream : Nat) : OggState → Buf → Nat → List Nat →
    OggState × List OggEvent × Nat
  | st, _, start, [] => (st, [], start)
  | st, chunk, start, size :: rest =>
    let segment := bslice chunk start (start + size)
    let res :=
      match st.head with
      | some _ =>
        if bslice segment 0 8 = OPUS_TAGS then (st, [OggEvent.tags segment])
        else if st.bitstream = some bitstream then (st, [OggEvent.packet segment])
        else (st, [])
      | none =>
        if bslice segment 0 8 = OPUS_HEAD then
          (OggState.mk (some segment) (some bitstream), [OggEvent.head segment])
        else (st, [OggEvent.unknownSegment segment])
    let tail := processSegs bitstream res.1 chunk (start + size) rest
    (tail.1, res.2 ++ tail.2.1, tail.2.2)

/-- Embeds `OggDemuxer._readPage`. -/
def readPage (st : OggState) (chunk : Buf) : PageResult :=
  if chunk.length < 26 then .tooShort
  else if bslice chunk 0 4 ≠ OGGS_HEADER then .err "capture_pattern"
  else if byteAt chunk 4 ≠ 0 then .err "stream_structure_version"
  else if chunk.length < 27 then .tooShort
  else if chunk.length < 27 + byteAt chunk 26 then .tooShort
  else
    match lacingTable (bslice chunk 27 (27 + byteAt chunk 26)) with
    | none => .tooShort
    | some sizes =>
      if chunk.length < 27 + byteAt chunk 26 + sizes.sum then .tooShort
      else
        let res := processSegs (readUInt32BE chunk 14) st chunk (27 + byteAt chunk 26) sizes
        .page res.1 res.2.1 (chunk.drop res.2.2)

/-- The final cursor of `processSegs` is the start plus the sum of the sizes. -/
theorem processSegs_final (bitstream : Nat) :
    ∀ (sizes : List Nat) (st : OggState) (chunk : Buf) (start : Nat),
      (processSegs bitstream st chunk start sizes).2.2 = start + sizes.sum := by
  intro sizes
  induction sizes with
  | nil => intro st chunk start; simp [processSegs]
  | cons x xs ih =>
    intro st chunk start
    simp only [processSegs]
    rw [ih]
    simp
    omega

/-- A consumed page strictly shrinks the buffer. -/
theorem readPage_rest_lt {st : OggState} {chunk : Buf} {st' : OggState}
    {evs : List OggEvent} {rest : Buf}
    (h : readPage st chunk = .page st' evs rest) : rest.length < chunk.length := by
  unfold readPage at h
  split at h
  · cases h
  · split at h
    · cases h
    · split at h
      · cases h
      · split at h
        · cases h
        · split at h
          · cases h
          · split at h
            · cases h
            · rename_i h26 _ _ h27 hseg sizes hlac
              split at h
              · cases h
              · cases h
                rename_i hlen
                rw [processSegs_final]
                rw [List.length_drop]
                omega

/-- The `_transform` inner loop: reads pages until `_readPage` returns
`false`; the final buffer becomes the new `_remainder`. -/
def oggLoop (st : OggState) (chunk : Buf) :
    Except String (OggState × List OggEvent × Buf) :=
  match h : readPage st chunk with
  | .tooShort => .ok (st, [], chunk)
  | .err m => .error m
  | .page st1 evs rest =>
    match oggLoop st1 rest with
    | .error m => .error m
    | .ok (st2, evs2, rem) => .ok (st2, evs ++ evs2, rem)
termination_by chunk.length
decreasing_by exact readPage_rest_lt h

/-- Embeds `OggDemuxer._transform`: prepends the retained `_remainder`
(`undefined` and an empty buffer behave identically under `Buffer.concat`,
so the remainder is a plain buffer) and runs the page loop. -/
def oggTransform (st : OggState) (remainder chunk : Buf) :
    Except String (OggState × List OggEvent × Buf) :=
  oggLoop st (remainder ++ chunk)

/-- The loop stops when `_readPage` reports insufficient data. -/
theorem oggLoop_tooShort {st : OggState} {chunk : Buf}
    (h : readPage st chunk = .tooShort) : oggLoop st chunk = .ok (st, [], chunk) := by
  conv_lhs => unfold oggLoop
  split
  · rfl
  · rename_i h'; rw [h] at h'; cases h'
  · rename_i h'; rw [h] at h'; cases h'

/-- State of a `WebmBaseDemuxer` instance: `_remainder`, `_length`, `_count`,
`_skipUntil`, `_track`, `_incompleteTrack` (its two fields separately, since
it is a `Partial<Track>`), `_ebmlFound`. -/
structure WebmState where
  remainder : Option Buf
  length : Nat
  count : Nat
  skipUntil : Option Nat
  track : Option (Nat × Nat)
  incompleteNumber : Option Nat
  incompleteType : Option Nat
  ebmlFound : Bool
deriving DecidableEq

/-- The initial state of a fresh `WebmBaseDemuxer`. -/
def initWebm : WebmState := ⟨none, 0, 0, none, none, none, none, false⟩

/-- Observable outputs of the WebM demuxer (only `push`es). -/
inductive WEvent
  | packet (b : Buf)
deriving DecidableEq

/-- Result of `_readTag`: `TOO_SHORT`, or an object with `offset` and an
optional `_skipUntil`. -/
inductive RTag
  | tooShort
  | tag (offset : Nat) (skip : Option Nat)
deriving DecidableEq

/-- Variant-specific `_checkHead` hook: it may throw and may push packets. -/
abbrev CheckHead := Buf → Except String (List WEvent)

/-- The static `TAGS` map keyed by the raw ID bytes (the source keys by the
lowercase hex string of exactly these bytes, an equivalent encoding):
`some true` = container, `some false` = leaf, `none` = unrecognized. -/
def tagKind (id : Buf) : Option Bool :=
  if id = [0x1a, 0x45, 0xdf, 0xa3] then some true
  else if id = [0x18, 0x53, 0x80, 0x67] then some true
  else if id = [0x1f, 0x43, 0xb6, 0x75] then some true
  else if id = [0x16, 0x54, 0xae, 0x6b] then some true
  else if id = [0xae] then some true
  else if id = [0xd7] then some false
  else if id = [0x83] then some false
  else if id = [0xa3] then some false
  else if id = [0x63, 0xa2] then some false
  else none

/-- The EBML root tag ID. -/
def EBML_ROOT : Buf := [0x1a, 0x45, 0xdf, 0xa3]

/-- The `ae` reset branch of the `if (!this._track)` block of `_readTag`
(in fact unreachable, `ae` being a container tag). -/
def updAe (st : WebmState) (id : Buf) : WebmState :=
  if id = [0xae] then {st with incompleteNumber := none, incompleteType := none}
  else st

/-- The `d7` (track-number) branch; `data[0]` of an empty body is
`undefined`, i.e. `none`. -/
def updD7 (st : WebmState) (id : Buf) (data : Buf) : WebmState :=
  if id = [0xd7] then {st with incompleteNumber := data.head?} else st

/-- The `83` (track-type) branch. -/
def upd83 (st : WebmState) (id : Buf) (data : Buf) : WebmState :=
  if id = [0x83] then {st with incompleteType := data.head?} else st

/-- The promotion check: `type === 2 && typeof number !== 'undefined'`. -/
def promoteTrack (st : WebmState) : WebmState :=
  match st.incompleteNumber, st.incompleteType with
  | some n, some t => if t = 2 then {st with track := some (n, t)} else st
  | _, _ => st

/-- The whole `if (!this._track)` block of `_readTag`. -/
def updIncomplete (st : WebmState) (id : Buf) (data : Buf) : WebmState :=
  promoteTrack (upd83 (updD7 (updAe st id) id data) id data)

/-- The `63a2`/`a3` dispatch on a leaf body, after the `_incompleteTrack`
update produced `st2`. -/
def readTagDispatch (ch : CheckHead) (st2 : WebmState) (data : Buf) (id : Buf)
    (endOffset : Nat) : Except String (WebmState × List WEvent × RTag) :=
  if id = [0x63, 0xa2] then
    match ch data with
    | .error e => .error e
    | .ok evs => .ok (st2, evs, .tag endOffset none)
  else if id = [0xa3] then
    match st2.track with
    | none => .error "No audio track in this webm!"
    | some tr =>
      if byteAt data 0 &&& 0xf = tr.1 then
        .ok (st2, [.packet (data.drop 4)], .tag endOffset none)
      else .ok (st2, [], .tag endOffset none)
  else .ok (st2, [], .tag endOffset none)

/-- Processing of a fully buffered leaf body (`data`), returning the cursor
past the element: the `if (!this._track)` update block, then the dispatch. -/
def readTagLeaf (ch : CheckHead) (st : WebmState) (data : Buf) (id : Buf)
    (endOffset : Nat) : Except String (WebmState × List WEvent × RTag) :=
  readTagDispatch ch (if st.track = none then updIncomplete st id data else st)
    data id endOffset

/-- The dispatch part of `_readTag` after the ID and size have been decoded:
`offset2` is the cursor after the size field, `dataLength` the decoded size —
a JS number, negative when the 32-bit-wrapped vint value is `≥ 2^31`.  A
container never examines `dataLength`, so oversized containers (a multi-GiB
`Segment`, say) parse exactly as in the source.  A negative `dataLength` on
an unknown or leaf tag makes the source's next cursor `offset2 + dataLength`
regress (the loop can then revisit positions and need not terminate), so the
walk is not modelled past such an element: the one data-independent
observable on the way — the `a3` branch's missing-track throw, raised on the
clamped body slice before any cursor move — is reflected exactly, and every
other negative-size unknown/leaf outcome is the distinguished
`cursor regression` error. -/
def readTagBody (ch : CheckHead) (st : WebmState) (chunk : Buf) (offset2 : Nat)
    (id : Buf) (dataLength : Int) : Except String (WebmState × List WEvent × RTag) :=
  match tagKind id with
  | none =>
    if (chunk.length : Int) > (offset2 : Int) + dataLength then
      if dataLength < 0 then .error "cursor regression (unmodelled)"
      else .ok (st, [], .tag (offset2 + dataLength.toNat) none)
    else .ok (st, [], .tag offset2 (some ((st.count + offset2 : Int) + dataLength).toNat))
  | some true => .ok (st, [], .tag offset2 none)
  | some false =>
    if (offset2 : Int) + dataLength > (chunk.length : Int) then .ok (st, [], .tooShort)
    else if dataLength < 0 then
      if id = [0xa3] then
        match (if st.track = none then
            updIncomplete st id (jsSlice chunk offset2 ((offset2 : Int) + dataLength))
          else st).track with
        | none => .error "No audio track in this webm!"
        | some _ => .error "cursor regression (unmodelled)"
      else .error "cursor regression (unmodelled)"
    else
      readTagLeaf ch st (bslice chunk offset2 (offset2 + dataLength.toNat)) id
        (offset2 + dataLength.toNat)

/-- The first-element check of `_readTag`: pass the state through (setting
`_ebmlFound` on the root tag), or `none` for the fatal missing-root error. -/
def ebmlCheck (st : WebmState) (id : Buf) : Option WebmState :=
  if st.ebmlFound then some st
  else if id = EBML_ROOT then some {st with ebmlFound := true}
  else none

/-- Embeds `WebmBaseDemuxer._readTag`.  The decoded size is kept as the JS
number `expandVint` produced (possibly negative after the 32-bit wrap) and
is handed to the body dispatch unchanged, exactly as in the source. -/
def readTag (ch : CheckHead) (st : WebmState) (chunk : Buf) (offset : Nat) :
    Except String (WebmState × List WEvent × RTag) :=
  match vintLength chunk offset with
  | none => .ok (st, [], .tooShort)
  | some idLength =>
    match ebmlCheck st (bslice chunk offset (offset + idLength)) with
    | none => .error "Did not find the EBML tag at the start of the stream"
    | some st1 =>
      match vintLength chunk (offset + idLength) with
      | none => .ok (st1, [], .tooShort)
      | some sizeLength =>
        match expandVint chunk (offset + idLength) (offset + idLength + sizeLength) with
        | none => .ok (st1, [], .tooShort)
        | some dl =>
          readTagBody ch st1 chunk (offset + idLength + sizeLength)
            (bslice chunk offset (offset + idLength)) dl

/-- The `_incompleteTrack` block ignores the body of an `a3` element: only
the pending promotion check runs. -/
theorem updIncomplete_a3 (st : WebmState) (d : Buf) :
    updIncomplete st [0xa3] d = promoteTrack st := by
  unfold updIncomplete updAe updD7 upd83
  rw [if_neg (by decide), if_neg (by decide), if_neg (by decide)]

/-- `readTagLeaf` either throws or reports the cursor just past the body. -/
theorem readTagLeaf_cases (ch : CheckHead) (st : WebmState) (data id : Buf)
    (endOffset : Nat) :
    (∃ e, readTagLeaf ch st data id endOffset = .error e) ∨
    (∃ st2 evs, readTagLeaf ch st data id endOffset = .ok (st2, evs, .tag endOffset none)) := by
  unfold readTagLeaf readTagDispatch
  split
  · split
    · exact Or.inl ⟨_, rfl⟩
    · exact Or.inr ⟨_, _, rfl⟩
  · split
    · split
      · exact Or.inl ⟨_, rfl⟩
      · split
        · exact Or.inr ⟨_, _, rfl⟩
        · exact Or.inr ⟨_, _, rfl⟩
    · exact Or.inr ⟨_, _, rfl⟩

/-- A successful `_readTag` with an `offset` result moves the cursor forward
by at least the two header bytes and never past the end of the buffer. -/
theorem readTag_tag_bounds {ch : CheckHead} {st : WebmState} {chunk : Buf}
    {offset : Nat} {st1 : WebmState} {evs : List WEvent} {o : Nat} {su : Option Nat}
    (h : readTag ch st chunk offset = .ok (st1, evs, .tag o su)) :
    offset + 2 ≤ o ∧ o ≤ chunk.length := by
  unfold readTag at h
  split at h
  · cases h
  rename_i idLength hid
  have hid1 := vintLength_pos hid
  split at h
  · cases h
  rename_i st1' hst1
  split at h
  · cases h
  rename_i sizeLength hsz
  have hsz1 := vintLength_pos hsz
  have hsz2 := vintLength_le hsz
  split at h
  · cases h
  rename_i dl hdl
  unfold readTagBody at h
  split at h
  · split at h
    · split at h
      · cases h
      · cases h
        rename_i hlen h0
        omega
    · cases h
      omega
  · cases h
    omega
  · split at h
    · cases h
    · split at h
      · split at h
        · split at h
          · cases h
          · cases h
        · cases h
      · rcases readTagLeaf_cases ch st1' (bslice chunk (offset + idLength + sizeLength)
          (offset + idLength + sizeLength + dl.toNat)) (bslice chunk offset (offset + idLength))
          (offset + idLength + sizeLength + dl.toNat) with ⟨e, he⟩ | ⟨st2, evs2, he⟩
        · rw [he] at h; cases h
        · rw [he] at h
          cases h
          rename_i hle h0
          omega

/-- The `_transform` inner loop of `WebmBaseDemuxer`: reads tags until
`TOO_SHORT`, a pending skip, or a falsy offset; returns the final state,
all events, and the final cursor. -/
def webmLoop (ch : CheckHead) (st : WebmState) (chunk : Buf) (offset : Nat) :
    Except String (WebmState × List WEvent × Nat) :=
  match hr : readTag ch st chunk offset with
  | .error e => .error e
  | .ok (st1, evs, .tooShort) => .ok (st1, evs, offset)
  | .ok (st1, evs, .tag o su) =>
    match su with
    | some u =>
      if u ≠ 0 then .ok ({st1 with skipUntil := some u}, evs, offset)
      else if o ≠ 0 then
        match webmLoop ch st1 chunk o with
        | .error e => .error e
        | .ok (st2, evs2, f) => .ok (st2, evs ++ evs2, f)
      else .ok (st1, evs, offset)
    | none =>
      if o ≠ 0 then
        match webmLoop ch st1 chunk o with
        | .error e => .error e
        | .ok (st2, evs2, f) => .ok (st2, evs ++ evs2, f)
      else .ok (st1, evs, offset)
termination_by chunk.length - offset
decreasing_by
  all_goals
    have := readTag_tag_bounds hr
    omega

/-- The tail of `_transform`: runs the loop from `off`, then commits
`_count += offset` and `_remainder = chunk.slice(offset)`. -/
def webmGo (ch : CheckHead) (st : WebmState) (chunk : Buf) (off : Nat) :
    Except String (WebmState × List WEvent) :=
  match webmLoop ch st chunk off with
  | .error e => .error e
  | .ok (st2, evs, f) =>
    .ok ({st2 with count := st2.count + f, remainder := some (chunk.drop f)}, evs)

/-- Embeds `WebmBaseDemuxer._transform`: `_length` grows by the raw chunk,
the retained `_remainder` is prepended, and the `_skipUntil` logic decides
where parsing resumes (`u - count` is in `Nat`; for every reachable state
`count ≤ u`, matching the JS subtraction). -/
def webmTransform (ch : CheckHead) (s : WebmState) (nc : Buf) :
    Except String (WebmState × List WEvent) :=
  match s.skipUntil with
  | some u =>
    if u ≠ 0 ∧ s.length + nc.length > u then
      webmGo ch
        { s with
          length := s.length + nc.length
          remainder := none
          skipUntil := none }
        ((s.remainder.getD []) ++ nc) (u - s.count)
    else if u ≠ 0 then
      .ok
        ({ s with
          length := s.length + nc.length
          remainder := none
          count := s.count + ((s.remainder.getD []) ++ nc).length }, [])
    else
      webmGo ch { s with length := s.length + nc.length, remainder := none }
        ((s.remainder.getD []) ++ nc) 0
  | none =>
    webmGo ch { s with length := s.length + nc.length, remainder := none }
      ((s.remainder.getD []) ++ nc) 0

/-- Feeds a list of chunks to the WebM demuxer, accumulating the events. -/
def webmRun (ch : CheckHead) : WebmState → List Buf → Except String (WebmState × List WEvent)
  | s, [] => .ok (s, [])
  | s, c :: cs =>
    match webmTransform ch s c with
    | .error e => .error e
    | .ok (s1, evs) =>
      match webmRun ch s1 cs with
      | .error e => .error e
      | .ok (s2, evs2) => .ok (s2, evs ++ evs2)

/-! ### Teardown (`cleanup`, `_destroy`, `_final`) -/

/-- Embeds `OggDemuxer.cleanup`: clears `_remainder`, `_head`, `_bitstream`. -/
def oggCleanup (_ : OggState × Buf) : OggState × Buf := (⟨none, none⟩, [])

/-- `OggDemuxer._destroy` / `_final`: call `cleanup` and emit nothing. -/
def oggTeardown (x : OggState × Buf) : (OggState × Buf) × List OggEvent :=
  (oggCleanup x, [])

/-- Embeds `WebmBaseDemuxer.cleanup`: the source clears only `_remainder`
and `_incompleteTrack`. -/
def webmCleanup (s : WebmState) : WebmState :=
  {s with remainder := none, incompleteNumber := none, incompleteType := none}

/-- `WebmBaseDemuxer._destroy` / `_final`: call `cleanup` and emit nothing. -/
def webmTeardown (s : WebmState) : WebmState × List WEvent :=
  (webmCleanup s, [])

/-! ### Variant `_checkHead` hooks -/

/-- The `'vorbis'` signature. -/
def VORBIS_HEAD : Buf := [0x76, 0x6f, 0x72, 0x62, 0x69, 0x73]

/-- Embeds the WebM-Vorbis `WebmDemuxer._checkHead`.  `data.readUInt8(0)` on
an empty buffer throws a `RangeError` in Node, modelled as an error; the
later `readUInt8(1)`/`readUInt8(2)` reads are only reached once the
signature check has ensured at least ten bytes. -/
def vorbisCheckHead (data : Buf) : Except String (List WEvent) :=
  if data.length < 1 then .error "RangeError"
  else if ¬ (byteAt data 0 = 2 ∧ bslice data 4 10 = VORBIS_HEAD) then
    .error "Audio codec is not Vorbis!"
  else
    .ok [.packet (bslice data 3 (3 + byteAt data 1)),
      .packet (bslice data (3 + byteAt data 1) (3 + byteAt data 1 + byteAt data 2)),
      .packet (data.drop (3 + byteAt data 1 + byteAt data 2))]

/-- Embeds the WebM-Opus `WebmDemuxer._checkHead`. -/
def opusCheckHead (data : Buf) : Except String (List WEvent) :=
  if bslice data 0 8 ≠ OPUS_HEAD then .error "Audio codec is not Opus!" else .ok []

/-! ### WebM: the parse core and the absolute-offset view

`_readTag` reads only the parse core (`_ebmlFound`, `_track`,
`_incompleteTrack`) and `_count`; the bookkeeping fields (`_remainder`,
`_length`, `_skipUntil`) are handled by `_transform`.  `mkAbsState`
projects a state onto a canonical one whose cursor arithmetic is in
absolute stream offsets (count 0). -/

/-- The canonical state used by the absolute-offset view of the walker. -/
def mkAbsState (s : WebmState) : WebmState :=
  ⟨none, 0, 0, none, s.track, s.incompleteNumber, s.incompleteType, s.ebmlFound⟩

@[simp] theorem mkAbsState_remainder (s : WebmState) : (mkAbsState s).remainder = none := rfl

@[simp] theorem mkAbsState_length (s : WebmState) : (mkAbsState s).length = 0 := rfl

@[simp] theorem mkAbsState_count (s : WebmState) : (mkAbsState s).count = 0 := rfl

@[simp] theorem mkAbsState_skipUntil (s : WebmState) : (mkAbsState s).skipUntil = none := rfl

@[simp] theorem mkAbsState_incompleteNumber (s : WebmState) :
    (mkAbsState s).incompleteNumber = s.incompleteNumber := rfl

@[simp] theorem mkAbsState_incompleteType (s : WebmState) :
    (mkAbsState s).incompleteType = s.incompleteType := rfl

/-- `readTagDispatch` returns its state argument unchanged on success. -/
theorem readTagDispatch_ok_state {ch : CheckHead} {st2 : WebmState} {data id : Buf}
    {e : Nat} {st' : WebmState} {evs : List WEvent} {r : RTag}
    (h : readTagDispatch ch st2 data id e = .ok (st', evs, r)) : st' = st2 := by
  unfold readTagDispatch at h
  split at h
  · split at h
    · cases h
    · cases h; rfl
  · split at h
    · split at h
      · cases h
      · split at h
        · cases h; rfl
        · cases h; rfl
    · cases h; rfl

/-- The EBML-root check: the state it passes on always has `_ebmlFound`
set, equals the input up to that flag, and the flag only flips on the root
tag when it was unset. -/
theorem ebmlCheck_inv {st st1 : WebmState} {id : Buf}
    (h : ebmlCheck st id = some st1) :
    st1.ebmlFound = true ∧ st1.remainder = st.remainder ∧ st1.length = st.length ∧
    st1.count = st.count ∧ st1.skipUntil = st.skipUntil ∧ st1.track = st.track ∧
    st1.incompleteNumber = st.incompleteNumber ∧
    st1.incompleteType = st.incompleteType ∧
    (st1 = st ∨ (st.ebmlFound = false ∧ id = EBML_ROOT ∧ st1 = {st with ebmlFound := true})) := by
  unfold ebmlCheck at h
  split at h
  · cases h
    rename_i hb
    exact ⟨hb, rfl, rfl, rfl, rfl, rfl, rfl, rfl, Or.inl rfl⟩
  · split at h
    · cases h
      rename_i hb hid
      exact ⟨rfl, rfl, rfl, rfl, rfl, rfl, rfl, rfl,
        Or.inr ⟨by simp at hb; exact hb, hid, rfl⟩⟩
    · cases h

/-- Reading at or past the end of the buffer is a no-op `TOO_SHORT`. -/
theorem readTag_oob {ch : CheckHead} {st : WebmState} {chunk : Buf} {offset : Nat}
    (h : chunk.length ≤ offset) : readTag ch st chunk offset = .ok (st, [], .tooShort) := by
  have hv : vintLength chunk offset = none := by
    unfold vintLength
    simp only
    rw [byteAt_oob h]
    rw [if_pos]
    show offset + (vintScan 0 + 1) > chunk.length
    have : vintScan 0 = 8 := rfl
    omega
  unfold readTag
  rw [hv]

/-! Construction lemmas for `_readTag`: one per outcome of the decoding
pipeline, used to rebuild the function's value from known conditions. -/

theorem readTag_eq_body {ch : CheckHead} {st st1 : WebmState} {chunk : Buf}
    {offset idL szL : Nat} {dl : Int} (h1 : vintLength chunk offset = some idL)
    (hc : ebmlCheck st (bslice chunk offset (offset + idL)) = some st1)
    (h2 : vintLength chunk (offset + idL) = some szL)
    (h3 : expandVint chunk (offset + idL) (offset + idL + szL) = some dl) :
    readTag ch st chunk offset =
      readTagBody ch st1 chunk (offset + idL + szL)
        (bslice chunk offset (offset + idL)) dl := by
  unfold readTag
  split
  · rename_i hv; rw [h1] at hv; cases hv
  · rename_i idL' hv
    rw [h1] at hv
    cases hv
    split
    · rename_i hcc; rw [hc] at hcc; cases hcc
    · rename_i st1' hcc
      rw [hc] at hcc
      cases hcc
      split
      · rename_i hsz; rw [h2] at hsz; cases hsz
      · rename_i szL' hsz
        rw [h2] at hsz
        cases hsz
        split
        · rename_i hex; rw [h3] at hex; cases hex
        · rename_i dl' hex
          rw [h3] at hex
          cases hex
          rfl

/-- Construction for the leaf-body-too-short outcome of `readTagBody`. -/
theorem readTagBody_eq_leafShort {ch : CheckHead} {st : WebmState} {chunk : Buf}
    {o2 : Nat} {id : Buf} {dl : Int} (hk : tagKind id = some false)
    (hlen : (o2 : Int) + dl > (chunk.length : Int)) :
    readTagBody ch st chunk o2 id dl = .ok (st, [], .tooShort) := by
  unfold readTagBody
  split
  · rename_i hk'; rw [hk] at hk'; cases hk'
  · rename_i hk'; rw [hk] at hk'; cases hk'
  · rw [if_pos hlen]

theorem readTagBody_eq_unknown_long {ch : CheckHead} {st : WebmState} {chunk : Buf}
    {o2 : Nat} {id : Buf} {dl : Int} (hk : tagKind id = none) (h0 : ¬ dl < 0)
    (hlen : (chunk.length : Int) > (o2 : Int) + dl) :
    readTagBody ch st chunk o2 id dl = .ok (st, [], .tag (o2 + dl.toNat) none) := by
  unfold readTagBody
  split
  · rw [if_pos hlen, if_neg h0]
  · rename_i hk'; rw [hk] at hk'; cases hk'
  · rename_i hk'; rw [hk] at hk'; cases hk'

theorem readTagBody_eq_unknown_back {ch : CheckHead} {st : WebmState} {chunk : Buf}
    {o2 : Nat} {id : Buf} {dl : Int} (hk : tagKind id = none) (h0 : dl < 0)
    (hlen : (chunk.length : Int) > (o2 : Int) + dl) :
    readTagBody ch st chunk o2 id dl = .error "cursor regression (unmodelled)" := by
  unfold readTagBody
  split
  · rw [if_pos hlen, if_pos h0]
  · rename_i hk'; rw [hk] at hk'; cases hk'
  · rename_i hk'; rw [hk] at hk'; cases hk'

theorem readTagBody_eq_unknown_short {ch : CheckHead} {st : WebmState} {chunk : Buf}
    {o2 : Nat} {id : Buf} {dl : Int} (hk : tagKind id = none)
    (hlen : ¬ (chunk.length : Int) > (o2 : Int) + dl) :
    readTagBody ch st chunk o2 id dl =
      .ok (st, [], .tag o2 (some ((st.count + o2 : Int) + dl).toNat)) := by
  unfold readTagBody
  split
  · rw [if_neg hlen]
  · rename_i hk'; rw [hk] at hk'; cases hk'
  · rename_i hk'; rw [hk] at hk'; cases hk'

theorem readTagBody_eq_container {ch : CheckHead} {st : WebmState} {chunk : Buf}
    {o2 : Nat} {id : Buf} {dl : Int} (hk : tagKind id = some true) :
    readTagBody ch st chunk o2 id dl = .ok (st, [], .tag o2 none) := by
  unfold readTagBody
  split
  · rename_i hk'; rw [hk] at hk'; cases hk'
  · rfl
  · rename_i hk'; rw [hk] at hk'; cases hk'

theorem readTagBody_eq_negA3 {ch : CheckHead} {st : WebmState} {chunk : Buf}
    {o2 : Nat} {dl : Int} (h0 : dl < 0)
    (hlen : ¬ (o2 : Int) + dl > (chunk.length : Int)) :
    readTagBody ch st chunk o2 [0xa3] dl =
      match (if st.track = none then promoteTrack st else st).track with
      | none => .error "No audio track in this webm!"
      | some _ => .error "cursor regression (unmodelled)" := by
  unfold readTagBody
  split
  · rename_i hk'; cases hk'
  · rename_i hk'; cases hk'
  · rw [if_neg hlen, if_pos h0, if_pos rfl, updIncomplete_a3]

theorem readTagBody_eq_negOther {ch : CheckHead} {st : WebmState} {chunk : Buf}
    {o2 : Nat} {id : Buf} {dl : Int} (hk : tagKind id = some false) (h0 : dl < 0)
    (hlen : ¬ (o2 : Int) + dl > (chunk.length : Int)) (hid : id ≠ [0xa3]) :
    readTagBody ch st chunk o2 id dl = .error "cursor regression (unmodelled)" := by
  unfold readTagBody
  split
  · rename_i hk'; rw [hk] at hk'; cases hk'
  · rename_i hk'; rw [hk] at hk'; cases hk'
  · rw [if_neg hlen, if_pos h0, if_neg hid]

theorem readTagBody_eq_leaf {ch : CheckHead} {st : WebmState} {chunk : Buf}
    {o2 : Nat} {id : Buf} {dl : Int} (hk : tagKind id = some false)
    (hlen : ¬ (o2 : Int) + dl > (chunk.length : Int)) (h0 : ¬ dl < 0) :
    readTagBody ch st chunk o2 id dl =
      readTagLeaf ch st (bslice chunk o2 (o2 + dl.toNat)) id (o2 + dl.toNat) := by
  unfold readTagBody
  split
  · rename_i hk'; rw [hk] at hk'; cases hk'
  · rename_i hk'; rw [hk] at hk'; cases hk'
  · rename_i hk'
    rw [hk] at hk'
    cases hk'
    rw [if_neg hlen, if_neg h0]

/-- Case analysis matching the branch structure of `readTagBody`, for an
offset inside the buffer (as guaranteed by the size vint having been read). -/
theorem readTagBody_cases (chunk : Buf) (o2 : Nat) (id : Buf) (dl : Int)
    (ho : o2 ≤ chunk.length) :
    (tagKind id = none ∧ ¬ dl < 0 ∧ (chunk.length : Int) > (o2 : Int) + dl) ∨
    (tagKind id = none ∧ dl < 0 ∧ (chunk.length : Int) > (o2 : Int) + dl) ∨
    (tagKind id = none ∧ ¬ dl < 0 ∧ ¬ (chunk.length : Int) > (o2 : Int) + dl) ∨
    tagKind id = some true ∨
    (tagKind id = some false ∧ (o2 : Int) + dl > (chunk.length : Int)) ∨
    (tagKind id = some false ∧ dl < 0 ∧ ¬ (o2 : Int) + dl > (chunk.length : Int)) ∨
    (tagKind id = some false ∧ ¬ dl < 0 ∧ ¬ (o2 : Int) + dl > (chunk.length : Int)) := by
  cases hk : tagKind id with
  | none =>
    by_cases h0 : dl < 0
    · exact Or.inr (Or.inl ⟨rfl, h0, by omega⟩)
    · by_cases hlen : (chunk.length : Int) > (o2 : Int) + dl
      · exact Or.inl ⟨rfl, h0, hlen⟩
      · exact Or.inr (Or.inr (Or.inl ⟨rfl, h0, hlen⟩))
  | some b =>
    cases b with
    | true => exact Or.inr (Or.inr (Or.inr (Or.inl rfl)))
    | false =>
      by_cases hlen : (o2 : Int) + dl > (chunk.length : Int)
      · exact Or.inr (Or.inr (Or.inr (Or.inr (Or.inl ⟨rfl, hlen⟩))))
      · by_cases h0 : dl < 0
        · exact Or.inr (Or.inr (Or.inr (Or.inr (Or.inr (Or.inl ⟨rfl, h0, hlen⟩)))))
        · exact Or.inr (Or.inr (Or.inr (Or.inr (Or.inr (Or.inr ⟨rfl, h0, hlen⟩)))))

/-- A suspended (skip-until) element: inversion facts plus the two possible
readings on an extension. -/
theorem readTag_skip_append {ch : CheckHead} {st st1 : WebmState} {X : Buf}
    {pos o u : Nat} {evs : List WEvent} (Y : Buf)
    (h : readTag ch st X pos = .ok (st1, evs, .tag o (some u))) :
    evs = [] ∧ ∃ e', u = st1.count + e' ∧ pos + 2 ≤ o ∧ o ≤ e' ∧ X.length ≤ e' ∧
      ((X ++ Y).length > e' → readTag ch st (X ++ Y) pos = .ok (st1, [], .tag e' none)) ∧
      ((X ++ Y).length ≤ e' → readTag ch st (X ++ Y) pos = .ok (st1, [], .tag o (some u))) := by
  unfold readTag at h
  split at h
  · cases h
  rename_i idL hv
  have hvle := vintLength_le hv
  have hvp := vintLength_pos hv
  have hva := vintLength_append (d := Y) hv
  have hida : bslice (X ++ Y) pos (pos + idL) = bslice X pos (pos + idL) :=
    bslice_append_left (by omega)
  split at h
  · cases h
  rename_i st1' hc
  have hca : ebmlCheck st (bslice (X ++ Y) pos (pos + idL)) = some st1' := by
    rw [hida]; exact hc
  split at h
  · cases h
  rename_i szL hsz
  have hszle := vintLength_le hsz
  have hszp := vintLength_pos hsz
  have hsza := vintLength_append (d := Y) hsz
  split at h
  · cases h
  rename_i dl hex
  have hexa := expandVint_append (d := Y) hex
  rcases readTagBody_cases X (pos + idL + szL) (bslice X pos (pos + idL)) dl
      (by omega) with ⟨hk, h0, hl⟩ | ⟨hk, h0, hl⟩ | ⟨hk, h0, hl⟩ | hk |
      ⟨hk, hl⟩ | ⟨hk, h0, hl⟩ | ⟨hk, h0, hl⟩
  · rw [readTagBody_eq_unknown_long hk h0 hl] at h; cases h
  · rw [readTagBody_eq_unknown_back hk h0 hl] at h; cases h
  · rw [readTagBody_eq_unknown_short hk hl] at h
    cases h
    refine ⟨rfl, pos + idL + szL + dl.toNat, by omega, by omega, by omega, by omega, ?_, ?_⟩
    · intro hgt
      rw [readTag_eq_body hva hca hsza hexa, hida]
      exact readTagBody_eq_unknown_long hk h0 (by rw [List.length_append] at hgt ⊢; omega)
    · intro hle
      rw [readTag_eq_body hva hca hsza hexa, hida]
      exact readTagBody_eq_unknown_short hk (by rw [List.length_append] at hle ⊢; omega)
  · rw [readTagBody_eq_container hk] at h; cases h
  · rw [readTagBody_eq_leafShort hk hl] at h; cases h
  · by_cases hid : bslice X pos (pos + idL) = [0xa3]
    · rw [hid] at h
      rw [readTagBody_eq_negA3 h0 hl] at h
      split at h <;> cases h
    · rw [readTagBody_eq_negOther hk h0 hl hid] at h; cases h
  · rw [readTagBody_eq_leaf hk hl h0] at h
    rcases readTagLeaf_cases ch st1' (bslice X (pos + idL + szL)
      (pos + idL + szL + dl.toNat)) (bslice X pos (pos + idL))
      (pos + idL + szL + dl.toNat) with ⟨e, he⟩ | ⟨stx, evsx, he⟩
    · rw [he] at h; cases h
    · rw [he] at h; cases h

/-- Inversion facts for a suspended element (instance of the extension lemma
at the trivial extension). -/
theorem readTag_skip_facts {ch : CheckHead} {st st1 : WebmState} {chunk : Buf}
    {pos o u : Nat} {evs : List WEvent}
    (h : readTag ch st chunk pos = .ok (st1, evs, .tag o (some u))) :
    evs = [] ∧ 0 < u ∧ st1.count + o ≤ u ∧ st1.count + chunk.length ≤ u := by
  obtain ⟨hevs, e', hu, hpo, hoe, hle, _, _⟩ := readTag_skip_append [] h
  exact ⟨hevs, by omega, by omega, by omega⟩

/-! ### WebM: the transform loop and its composition -/

/-- Prepends events to a loop result. -/
def wAppend (evs : List WEvent) :
    Except String (WebmState × List WEvent × Nat) →
      Except String (WebmState × List WEvent × Nat)
  | .error e => .error e
  | .ok (st, evs2, f) => .ok (st, evs ++ evs2, f)

theorem wAppend_nil (r : Except String (WebmState × List WEvent × Nat)) :
    wAppend [] r = r := by
  cases r with
  | error e => rfl
  | ok v => obtain ⟨st, evs, f⟩ := v; simp [wAppend]

/-- The loop propagates a `_readTag` error. -/
theorem webmLoop_err {ch : CheckHead} {st : WebmState} {chunk : Buf} {offset : Nat}
    {e : String} (h : readTag ch st chunk offset = .error e) :
    webmLoop ch st chunk offset = .error e := by
  conv_lhs => unfold webmLoop
  split
  · rename_i h'; rw [h] at h'; cases h'; rfl
  · rename_i h'; rw [h] at h'; cases h'
  · rename_i h'; rw [h] at h'; cases h'

/-- The loop stops on `TOO_SHORT`, at the current offset. -/
theorem webmLoop_tooShort {ch : CheckHead} {st st1 : WebmState} {chunk : Buf}
    {offset : Nat} {evs : List WEvent}
    (h : readTag ch st chunk offset = .ok (st1, evs, .tooShort)) :
    webmLoop ch st chunk offset = .ok (st1, evs, offset) := by
  conv_lhs => unfold webmLoop
  split
  · rename_i h'; rw [h] at h'; cases h'
  · rename_i h'; rw [h] at h'; cases h'; rfl
  · rename_i h'; rw [h] at h'; cases h'

/-- The loop stores a pending skip and stops, without advancing the offset. -/
theorem webmLoop_skip {ch : CheckHead} {st st1 : WebmState} {chunk : Buf}
    {offset o u : Nat} {evs : List WEvent}
    (h : readTag ch st chunk offset = .ok (st1, evs, .tag o (some u))) (hu : u ≠ 0) :
    webmLoop ch st chunk offset = .ok ({st1 with skipUntil := some u}, evs, offset) := by
  conv_lhs => unfold webmLoop
  split
  · rename_i h'; rw [h] at h'; cases h'
  · rename_i h'; rw [h] at h'; cases h'
  · rename_i st1' evs' o' su' h'
    rw [h] at h'
    cases h'
    simp [hu]

/-- The loop advances past a completed element and continues. -/
theorem webmLoop_tag {ch : CheckHead} {st st1 : WebmState} {chunk : Buf}
    {offset o : Nat} {evs : List WEvent}
    (h : readTag ch st chunk offset = .ok (st1, evs, .tag o none)) :
    webmLoop ch st chunk offset = wAppend evs (webmLoop ch st1 chunk o) := by
  have hb := readTag_tag_bounds h
  conv_lhs => unfold webmLoop
  split
  · rename_i h'; rw [h] at h'; cases h'
  · rename_i h'; rw [h] at h'; cases h'
  · rename_i st1' evs' o' su' h'
    rw [h] at h'
    cases h'
    have ho : o ≠ 0 := by omega
    cases hl : webmLoop ch st1 chunk o with
    | error e => simp [ho, hl, wAppend]
    | ok v => obtain ⟨st2, evs2, f⟩ := v; simp [ho, hl, wAppend]

/-- The canonical absolute-offset image of a demuxer state: the parsing
position is erased but a pending `_skipUntil` target is kept. -/
def aState (s : WebmState) : WebmState :=
  {mkAbsState s with skipUntil := s.skipUntil}

theorem aState_skip (s : WebmState) : (aState s).skipUntil = s.skipUntil := rfl

theorem wAppend_ok_nil (evs : List WEvent) (x : WebmState) (n : Nat) :
    wAppend evs (.ok (x, [], n)) = .ok (x, evs, n) := by
  simp [wAppend]

theorem webmRun_cons_err {ch : CheckHead} {s : WebmState} {nc : Buf} {e : String}
    (cs : List Buf) (h : webmTransform ch s nc = .error e) :
    webmRun ch s (nc :: cs) = .error e := by
  unfold webmRun
  rw [h]

theorem webmGo_eq_err {ch : CheckHead} {st : WebmState} {chunk : Buf} {off : Nat}
    {e : String} (h : webmLoop ch st chunk off = .error e) :
    webmGo ch st chunk off = .error e := by
  unfold webmGo
  rw [h]

theorem webmGo_eq_ok {ch : CheckHead} {st st2 : WebmState} {chunk : Buf} {off f : Nat}
    {evs : List WEvent} (h : webmLoop ch st chunk off = .ok (st2, evs, f)) :
    webmGo ch st chunk off =
      .ok ({st2 with count := st2.count + f, remainder := some (chunk.drop f)}, evs) := by
  unfold webmGo
  rw [h]

theorem webmTransform_none {ch : CheckHead} {s : WebmState} {nc : Buf}
    (h : s.skipUntil = none) :
    webmTransform ch s nc =
      webmGo ch {s with length := s.length + nc.length, remainder := none}
        ((s.remainder.getD []) ++ nc) 0 := by
  unfold webmTransform
  split
  · rename_i u hu
    rw [h] at hu
    cases hu
  · rfl

theorem webmTransform_resume {ch : CheckHead} {s : WebmState} {nc : Buf} {u : Nat}
    (h : s.skipUntil = some u) (hu : u ≠ 0) (hl : s.length + nc.length > u) :
    webmTransform ch s nc =
      webmGo ch
        { s with
          length := s.length + nc.length
          remainder := none
          skipUntil := none }
        ((s.remainder.getD []) ++ nc) (u - s.count) := by
  unfold webmTransform
  split
  · rename_i u' hu'
    rw [h] at hu'
    injection hu' with he
    subst he
    rw [if_pos ⟨hu, hl⟩]
  · rename_i hn
    rw [h] at hn
    cases hn

theorem webmTransform_stay {ch : CheckHead} {s : WebmState} {nc : Buf} {u : Nat}
    (h : s.skipUntil = some u) (hu : u ≠ 0) (hl : ¬s.length + nc.length > u) :
    webmTransform ch s nc =
      .ok
        ({ s with
          length := s.length + nc.length
          remainder := none
          count := s.count + ((s.remainder.getD []) ++ nc).length }, []) := by
  unfold webmTransform
  split
  · rename_i u' hu'
    rw [h] at hu'
    injection hu' with he
    subst he
    rw [if_neg (fun hc => hl hc.2), if_pos hu]
  · rename_i hn
    rw [h] at hn
    cases hn

/-- Unfolded form of `vintLength`. -/
theorem vintLength_eq (buffer : Buf) (index : Nat) :
    vintLength buffer index =
      if index + (vintScan (byteAt buffer index) + 1) > buffer.length then none
      else some (vintScan (byteAt buffer index) + 1) := rfl

/-- C10: `vintLength` yields a numeric length `L` only when `index + L` fits
in the buffer, and `expandVint` yields a numeric value only when the
requested end offset is inside the buffer; beyond the buffer both return the
`TOO_SHORT` sentinel, so neither derives a number from out-of-range bytes. -/
theorem C10_vint_bounds :
    (∀ (buffer : Buf) (index L : Nat), vintLength buffer index = some L →
      index + L ≤ buffer.length) ∧
    (∀ (buffer : Buf) (start fin : Nat) (v : Int), expandVint buffer start fin = some v →
      fin ≤ buffer.length ∧ vintLength buffer start ≠ none) ∧
    (∀ (buffer : Buf) (index : Nat),
      buffer.length < index + (vintScan (byteAt buffer index) + 1) →
      vintLength buffer index = none) ∧
    (∀ (buffer : Buf) (start fin : Nat), buffer.length < fin →
      expandVint buffer start fin = none) := by
  refine ⟨?_, ?_, ?_, ?_⟩
  · intro buffer index L h
    rw [vintLength_eq] at h
    split at h
    · cases h
    · rename_i hle
      cases h
      omega
  · intro buffer start fin v h
    unfold expandVint at h
    split at h
    · cases h
    · rename_i L hv
      split at h
      · cases h
      · rename_i hfin
        exact ⟨by omega, by rw [hv]; exact Option.some_ne_none L⟩
  · intro buffer index h
    rw [vintLength_eq, if_pos (by omega)]
  · intro buffer start fin h
    unfold expandVint
    split
    · rfl
    · rw [if_pos (by omega)]

theorem C10_vint_bounds_witness :
    0 + 1 ≤ List.length [0x81] ∧ expandVint [] 0 1 = none :=
  ⟨C10_vint_bounds.1 [0x81] 0 1 (by decide), C10_vint_bounds.2.2.2 [] 0 1 (by decide)⟩

/-- A lacing table whose final entry is `255` never terminates its last run:
the reconstruction loop runs off the table and `_readPage` reports
insufficient data. -/
theorem lacingTable_last255 : ∀ t : Buf, t.getLast? = some 255 → lacingTable t = none := by
  intro t
  induction t with
  | nil => intro h; cases h
  | cons x rest ih =>
    intro h
    cases rest with
    | nil =>
      simp [List.getLast?] at h
      subst h
      rfl
    | cons y t2 =>
      have h2 : (y :: t2).getLast? = some 255 := by
        rwa [List.getLast?_cons_cons] at h
      have h3 := ih h2
      show lacingTable (x :: y :: t2) = none
      unfold lacingTable
      split
      · rw [h3]
      · rw [h3]

/-- C9: a buffer holding a complete page header and a complete lacing table
whose final entry is `255` makes `_readPage` return the insufficient-data
result whatever payload follows, so the page is never consumed and the
transform loop stalls with the whole buffer retained. -/
theorem C9_unterminated_lacing (st : OggState) (chunk : Buf)
    (hcap : bslice chunk 0 4 = OGGS_HEADER) (hver : byteAt chunk 4 = 0)
    (hseg : 27 + byteAt chunk 26 ≤ chunk.length)
    (hlast : (bslice chunk 27 (27 + byteAt chunk 26)).getLast? = some 255) :
    readPage st chunk = .tooShort ∧ oggLoop st chunk = .ok (st, [], chunk) := by
  have hlac := lacingTable_last255 _ hlast
  have hrp : readPage st chunk = .tooShort := by
    unfold readPage
    rw [if_neg (by omega), if_neg (by simp [hcap]), if_neg (by simp [hver]),
      if_neg (by omega), if_neg (by omega), hlac]
  exact ⟨hrp, oggLoop_tooShort hrp⟩

/-- A page with one lacing entry `255` and three payload bytes. -/
def c9chunk : Buf :=
  OGGS_HEADER ++ [0] ++ List.replicate 9 0 ++ [0, 0, 0, 1] ++ List.replicate 8 0 ++
    [1, 255] ++ [1, 2, 3]

theorem C9_unterminated_lacing_witness :
    readPage initOgg c9chunk = .tooShort ∧
    oggLoop initOgg c9chunk = .ok (initOgg, [], c9chunk) :=
  C9_unterminated_lacing initOgg c9chunk (by decide) (by decide) (by decide) (by decide)

/-- C7: what teardown actually discards.  `OggDemuxer.cleanup` clears the
residual buffer, the recorded head and the pinned bitstream id, and
`_destroy`/`_final` emit nothing; `WebmBaseDemuxer.cleanup` clears only the
residual buffer and the in-progress track descriptor, keeping the resolved
track, the pending skip target, both byte counters and the root-seen flag. -/
theorem C7_teardown_behavior (x : OggState × Buf) (s : WebmState) :
    oggTeardown x = ((⟨none, none⟩, []), []) ∧
    webmTeardown s =
      ({s with remainder := none, incompleteNumber := none, incompleteType := none}, []) :=
  ⟨rfl, rfl⟩

/-- A fully populated walker state, for exhibiting what `cleanup` keeps. -/
def c7state : WebmState := ⟨some [1], 7, 7, some 9, some (5, 2), some 5, some 2, true⟩

theorem C7_webm_cleanup_retains :
    webmCleanup c7state = ⟨none, 7, 7, some 9, some (5, 2), none, none, true⟩ ∧
    (webmCleanup c7state).track = some (5, 2) ∧
    (webmCleanup c7state).skipUntil = some 9 ∧
    (webmCleanup c7state).count = 7 ∧
    (webmCleanup c7state).ebmlFound = true :=
  ⟨rfl, rfl, rfl, rfl, rfl⟩

/-- C3: the Vorbis `_checkHead` hook on a codec-private payload whose three
1-byte lengths sit at offsets 1 and 2 and whose `'vorbis'` signature sits at
offsets 4-9: it accepts and pushes three packets of lengths 3, 4 and the
length of the remainder, in order. -/
theorem C3_vorbis_head_packets (t : Nat) (rest : Buf) :
    vorbisCheckHead (2 :: 3 :: 4 :: t :: (VORBIS_HEAD ++ rest)) =
      .ok [.packet [t, 0x76, 0x6f], .packet [0x72, 0x62, 0x69, 0x73], .packet rest] ∧
    rest.length = (2 :: 3 :: 4 :: t :: (VORBIS_HEAD ++ rest)).length - 10 := by
  constructor
  · show vorbisCheckHead
      (2 :: 3 :: 4 :: t :: 0x76 :: 0x6f :: 0x72 :: 0x62 :: 0x69 :: 0x73 :: rest) = _
    unfold vorbisCheckHead
    rw [if_neg (by simp), if_neg (by simp [byteAt, bslice, VORBIS_HEAD])]
    simp [byteAt, bslice]
  · simp [VORBIS_HEAD]

theorem C3_claim_layout_errors :
    vorbisCheckHead ([2, 3, 4] ++ VORBIS_HEAD ++ [0, 0, 0] ++ [0, 0, 0, 0] ++ [0]) =
      .error "Audio codec is not Vorbis!" := rfl

/-- A 37-byte page (head already recorded, bitstream id 1) whose single
segment is the 9 bytes `'OpusTags' 00`. -/
def c2seg : Buf := [0x4f, 0x70, 0x75, 0x73, 0x54, 0x61, 0x67, 0x73, 0x00]

def c2chunk : Buf :=
  OGGS_HEADER ++ [0] ++ List.replicate 9 0 ++ [0, 0, 0, 1] ++ List.replicate 8 0 ++
    [1, 9] ++ c2seg

/-- The same page whose single segment is exactly the 7 bytes `'OpusTag'`. -/
def c2chunk7 : Buf :=
  OGGS_HEADER ++ [0] ++ List.replicate 9 0 ++ [0, 0, 0, 1] ++ List.replicate 8 0 ++
    [1, 7] ++ OPUS_TAGS

/-- C2: with a head recorded and the page's bitstream id equal to the pinned
id, a segment beginning with the 8-byte comment signature `'OpusTags'` is not
signalled as a tags event but pushed as an audio packet (the source's
`OPUS_TAGS` constant is the 7 bytes `'OpusTag'`, and `segment.slice(0, 8)`
of a longer segment never equals it); only a segment that is exactly the
7 bytes `'OpusTag'` triggers the tags event. -/
theorem C2_comment_signature_not_tags :
    (bslice c2seg 0 8 = [0x4f, 0x70, 0x75, 0x73, 0x54, 0x61, 0x67, 0x73] ∧
      readPage ⟨some OPUS_HEAD, some 1⟩ c2chunk =
        .page ⟨some OPUS_HEAD, some 1⟩ [OggEvent.packet c2seg] []) ∧
    readPage ⟨some OPUS_HEAD, some 1⟩ c2chunk7 =
      .page ⟨some OPUS_HEAD, some 1⟩ [OggEvent.tags OPUS_TAGS] [] := by
  refine ⟨⟨by decide, by decide⟩, by decide⟩

/-- `_readPage` reports insufficient data when the declared segment total
exceeds the bytes available. -/
theorem readPage_oversized {st : OggState} {chunk : Buf} {sizes : List Nat}
    (hcap : bslice chunk 0 4 = OGGS_HEADER) (hver : byteAt chunk 4 = 0)
    (hseg : 27 + byteAt chunk 26 ≤ chunk.length)
    (hlac : lacingTable (bslice chunk 27 (27 + byteAt chunk 26)) = some sizes)
    (hlen : chunk.length < 27 + byteAt chunk 26 + sizes.sum) :
    readPage st chunk = .tooShort := by
  unfold readPage
  rw [if_neg (by omega), if_neg (by simp [hcap]), if_neg (by simp [hver]),
    if_neg (by omega), if_neg (by omega), hlac]
  show (if List.length chunk < 27 + byteAt chunk 26 + sizes.sum then PageResult.tooShort
    else
      let res := processSegs (readUInt32BE chunk 14) st chunk (27 + byteAt chunk 26) sizes
      PageResult.page res.1 res.2.1 (List.drop res.2.2 chunk)) = PageResult.tooShort
  rw [if_pos hlen]

/-- C5 (amended): insufficient data stalls without error or byte loss as long
as the element's size does not wrap negative in 32 bits.  If an Ogg page
declares more payload than has arrived, the call returns the state
unchanged, emits nothing and retains the entire concatenated buffer; if a
known WebM leaf element declares a body extending past the available bytes
and the decoded size is nonnegative, `_transform` likewise returns
successfully with no events and retains the entire concatenated buffer,
however many further calls repeat this.  The nonnegativity proviso is
necessary: a leaf declaring a 2^31-byte body wraps negative and the first
call throws instead of stalling (see the counterexample below). -/
theorem C5_insufficient_data_stalls :
    (∀ (st : OggState) (r c : Buf) (sizes : List Nat),
      bslice (r ++ c) 0 4 = OGGS_HEADER → byteAt (r ++ c) 4 = 0 →
      27 + byteAt (r ++ c) 26 ≤ (r ++ c).length →
      lacingTable (bslice (r ++ c) 27 (27 + byteAt (r ++ c) 26)) = some sizes →
      (r ++ c).length < 27 + byteAt (r ++ c) 26 + sizes.sum →
      oggTransform st r c = .ok (st, [], r ++ c)) ∧
    (∀ (ch : CheckHead) (s : WebmState) (nc : Buf) (idL szL : Nat) (dl : Int),
      s.skipUntil = none → s.ebmlFound = true →
      vintLength ((s.remainder.getD []) ++ nc) 0 = some idL →
      tagKind (bslice ((s.remainder.getD []) ++ nc) 0 idL) = some false →
      vintLength ((s.remainder.getD []) ++ nc) idL = some szL →
      expandVint ((s.remainder.getD []) ++ nc) idL (idL + szL) = some dl →
      ¬ dl < 0 →
      idL + szL + dl.toNat > ((s.remainder.getD []) ++ nc).length →
      webmTransform ch s nc =
        .ok ({ s with
          length := s.length + nc.length
          remainder := some ((s.remainder.getD []) ++ nc) }, [])) := by
  constructor
  · intro st r c sizes hcap hver hseg hlac hlen
    exact oggLoop_tooShort (readPage_oversized hcap hver hseg hlac hlen)
  · intro ch s nc idL szL dl hsk heb hv hk hsz hex hdl hover
    rw [webmTransform_none hsk]
    have hceb :
        ({s with length := s.length + nc.length, remainder := none} : WebmState).ebmlFound =
          true := heb
    have hc : ebmlCheck {s with length := s.length + nc.length, remainder := none}
        (bslice ((s.remainder.getD []) ++ nc) 0 (0 + idL)) =
        some {s with length := s.length + nc.length, remainder := none} := by
      unfold ebmlCheck
      rw [if_pos hceb]
    have hsz0 : vintLength ((s.remainder.getD []) ++ nc) (0 + idL) = some szL := by
      rw [Nat.zero_add]
      exact hsz
    have hex0 : expandVint ((s.remainder.getD []) ++ nc) (0 + idL) (0 + idL + szL) =
        some dl := by
      rw [Nat.zero_add]
      exact hex
    have hrt : readTag ch {s with length := s.length + nc.length, remainder := none}
        ((s.remainder.getD []) ++ nc) 0 =
        .ok ({s with length := s.length + nc.length, remainder := none}, [],
          .tooShort) := by
      rw [readTag_eq_body hv hc hsz0 hex0]
      apply readTagBody_eq_leafShort
      · rw [Nat.zero_add]
        exact hk
      · omega
    have hloop := webmLoop_tooShort hrt
    rw [webmGo_eq_ok hloop]
    rfl

/-- A page declaring a 5-byte segment with only two payload bytes present. -/
def c5ogg : Buf :=
  OGGS_HEADER ++ [0] ++ List.replicate 9 0 ++ [0, 0, 0, 1] ++ List.replicate 8 0 ++
    [1, 5] ++ [1, 2]

theorem C5_insufficient_data_stalls_witness :
    oggTransform initOgg [] c5ogg = .ok (initOgg, [], [] ++ c5ogg) ∧
    webmTransform opusCheckHead ⟨none, 0, 0, none, none, none, none, true⟩
        [0xa3, 0x85, 1, 2] =
      .ok (⟨some [0xa3, 0x85, 1, 2], 4, 0, none, none, none, none, true⟩, []) := by
  constructor
  · exact C5_insufficient_data_stalls.1 initOgg [] c5ogg [5] (by decide) (by decide)
      (by decide) (by decide) (by decide)
  · exact C5_insufficient_data_stalls.2 opusCheckHead
      ⟨none, 0, 0, none, none, none, none, true⟩ [0xa3, 0x85, 1, 2] 1 1 5 rfl rfl
      (by decide) (by decide) (by decide) (by decide) (by decide) (by decide)

/-- A minimal EBML root followed by a SimpleBlock (`a3`) leaf whose 5-byte
size vint declares a 2^31-byte body: the 32-bit size arithmetic wraps it to
-2^31. -/
def c5neg : Buf :=
  [0x1a, 0x45, 0xdf, 0xa3, 0x80, 0xa3, 0x08, 0x80, 0x00, 0x00, 0x00]

/-- Counterexample to the unqualified claim: this element's declared body
(2^31 bytes) exceeds the bytes available in the first call, yet the demuxer
does not stall - the wrapped-negative size routes the block to the
track-resolution check, which throws on the very first call. -/
theorem C5_negative_size_throws :
    webmRun opusCheckHead initWebm [c5neg] =
      .error "No audio track in this webm!" := by
  have h1 : readTag opusCheckHead ⟨none, 11, 0, none, none, none, none, false⟩
      c5neg 0 =
      .ok (⟨none, 11, 0, none, none, none, none, true⟩, [], .tag 5 none) := rfl
  have h2 : readTag opusCheckHead ⟨none, 11, 0, none, none, none, none, true⟩
      c5neg 5 = .error "No audio track in this webm!" := rfl
  have hloop : webmLoop opusCheckHead ⟨none, 11, 0, none, none, none, none, false⟩
      c5neg 0 = .error "No audio track in this webm!" := by
    rw [webmLoop_tag h1, webmLoop_err h2]
    rfl
  have ht : webmTransform opusCheckHead initWebm c5neg =
      .error "No audio track in this webm!" := by
    rw [webmTransform_none rfl]
    show webmGo opusCheckHead ⟨none, 11, 0, none, none, none, none, false⟩ c5neg 0 =
      .error "No audio track in this webm!"
    exact webmGo_eq_err hloop
  exact webmRun_cons_err [] ht

set_option maxRecDepth 4000 in
/-- For a nonzero first byte the bit scan stops inside the byte. -/
theorem c4scan : ∀ b : Nat, b < 256 → b ≠ 0 → vintScan b < 8 := by decide

/-- A small nonnegative value is its own 32-bit signed reinterpretation. -/
theorem toInt32_of_lt {z : Int} (h0 : 0 ≤ z) (h1 : z < 2 ^ 31) : toInt32 z = z := by
  have hm : z % (2 ^ 32 : Int) = z := Int.emod_eq_of_lt h0 (by omega)
  show (if z % 2 ^ 32 < 2 ^ 31 then z % 2 ^ 32 else z % 2 ^ 32 - 2 ^ 32) = z
  rw [hm, if_pos h1]

/-- `a << 8` in JS is multiplication by 256 before wrapping. -/
theorem jsShl_eight (a : Int) : jsShl a 8 = toInt32 (a * 256) := by
  have h : toUint32 (8 : Int) % 32 = 8 := by decide
  show toInt32 (a * 2 ^ (toUint32 (8 : Int) % 32)) = toInt32 (a * 256)
  rw [h]
  norm_num

/-- The big-endian accumulator never decreases. -/
theorem natFold_le (buffer : Buf) : ∀ (n s v : Nat),
    v ≤ (List.range' s n).foldl (fun a i => a * 256 + byteAt buffer i) v := by
  intro n
  induction n with
  | zero => intro s v; exact Nat.le_refl v
  | succ n ih =>
    intro s v
    have h1 : v ≤ v * 256 + byteAt buffer s := by omega
    exact le_trans h1 (ih (s + 1) (v * 256 + byteAt buffer s))

/-- Below `2^31` the JS accumulation loop agrees with exact big-endian
concatenation. -/
theorem c4fold : ∀ (n s : Nat) (buffer : Buf) (v : Nat),
    (List.range' s n).foldl (fun a i => a * 256 + byteAt buffer i) v < 2 ^ 31 →
    (List.range' s n).foldl (fun a i => jsShl a 8 + (byteAt buffer i : Int)) (v : Int) =
      (((List.range' s n).foldl (fun a i => a * 256 + byteAt buffer i) v : Nat) : Int) := by
  intro n
  induction n with
  | zero => intro s buffer v h; rfl
  | succ n ih =>
    intro s buffer v h
    have h' : (List.range' (s + 1) n).foldl (fun a i => a * 256 + byteAt buffer i)
        (v * 256 + byteAt buffer s) < 2 ^ 31 := h
    have h2 : v * 256 + byteAt buffer s < 2 ^ 31 :=
      lt_of_le_of_lt (natFold_le buffer n (s + 1) (v * 256 + byteAt buffer s)) h'
    have hv256 : (v * 256 : Nat) < 2 ^ 31 := by omega
    have hshl : jsShl (v : Int) 8 + (byteAt buffer s : Int) =
        ((v * 256 + byteAt buffer s : Nat) : Int) := by
      rw [jsShl_eight]
      have hz : ((v : Int) * 256) = ((v * 256 : Nat) : Int) := by push_cast; ring
      rw [hz, toInt32_of_lt (by positivity) (by exact_mod_cast hv256)]
      push_cast
      ring
    rw [List.range'_succ]
    simp only [List.foldl_cons]
    rw [hshl]
    exact ih (s + 1) buffer (v * 256 + byteAt buffer s) h'

set_option maxRecDepth 40000 in
/-- The source's mask step computes the spec's marker-bit mask for in-range
bytes and lengths. -/
theorem c4mask : ∀ L : Nat, L < 9 → ∀ b : Nat, b < 256 →
    jsAnd (b : Int) (jsShl 1 ((8 : Int) - (L : Int)) - 1) =
      ((b % 2 ^ (8 - L) : Nat) : Int) := by decide

/-- C4: amended variable-length-integer decoding.  For a nonzero in-range
first byte, the field length is the leading-zero count plus one and lies in
1..8, and — provided the spec's big-endian value stays below `2^31`, where
the JS 32-bit shift cannot wrap — `expandVint` returns exactly the first
byte masked by `(1 << (8-L)) - 1` concatenated big-endian with the remaining
`L-1` bytes; in particular `0x81` decodes to length 1 value 1 and
`0x41 0x02` to length 2 value `0x102`. -/
theorem C4_vint_decode (buffer : Buf) (start : Nat)
    (hb : byteAt buffer start ≠ 0) (hb2 : byteAt buffer start < 256)
    (hfit : start + (vintScan (byteAt buffer start) + 1) ≤ buffer.length)
    (hval : (List.range' (start + 1) (vintScan (byteAt buffer start))).foldl
        (fun a i => a * 256 + byteAt buffer i)
        (byteAt buffer start % 2 ^ (8 - (vintScan (byteAt buffer start) + 1))) < 2 ^ 31) :
    vintLength buffer start = some (vintScan (byteAt buffer start) + 1) ∧
    1 ≤ vintScan (byteAt buffer start) + 1 ∧ vintScan (byteAt buffer start) + 1 ≤ 8 ∧
    expandVint buffer start (start + (vintScan (byteAt buffer start) + 1)) =
      some (((List.range' (start + 1) (vintScan (byteAt buffer start))).foldl
        (fun a i => a * 256 + byteAt buffer i)
        (byteAt buffer start % 2 ^ (8 - (vintScan (byteAt buffer start) + 1))) : Nat) : Int) ∧
    vintLength [0x81] 0 = some 1 ∧ expandVint [0x81] 0 1 = some 1 ∧
    vintLength [0x41, 0x02] 0 = some 2 ∧ expandVint [0x41, 0x02] 0 2 = some 0x102 := by
  have hs8 := c4scan (byteAt buffer start) hb2 hb
  have h1 : vintLength buffer start = some (vintScan (byteAt buffer start) + 1) := by
    rw [vintLength_eq, if_neg (by omega)]
  refine ⟨h1, by omega, by omega, ?_, by decide, by decide, by decide, by decide⟩
  unfold expandVint
  simp only [h1]
  rw [if_neg (by omega)]
  have hcnt : start + (vintScan (byteAt buffer start) + 1) - (start + 1) =
      vintScan (byteAt buffer start) := by omega
  rw [hcnt, c4mask (vintScan (byteAt buffer start) + 1) (by omega) (byteAt buffer start) hb2]
  rw [c4fold (vintScan (byteAt buffer start)) (start + 1) buffer
    (byteAt buffer start % 2 ^ (8 - (vintScan (byteAt buffer start) + 1))) hval]

theorem C4_vint_decode_witness :
    vintLength [0x41, 0x02] 0 = some 2 ∧ expandVint [0x41, 0x02] 0 2 = some 0x102 := by
  have h := C4_vint_decode [0x41, 0x02] 0 (by decide) (by decide) (by decide) (by decide)
  exact ⟨h.1, h.2.2.2.2.2.2.2⟩

/-- On the five-byte field `08 80 00 00 00` the JS shift wraps: the source
returns `-2^31` where the spec's big-endian concatenation is `2^31`. -/
theorem C4_expandVint_wraps :
    expandVint [8, 0x80, 0, 0, 0] 0 5 = some (-2147483648) ∧
    (List.range' 1 4).foldl (fun a i => a * 256 + byteAt [8, 0x80, 0, 0, 0] i)
      (byteAt [8, 0x80, 0, 0, 0] 0 % 2 ^ (8 - 5)) = 2147483648 ∧
    (-2147483648 : Int) ≠ ((2147483648 : Nat) : Int) := by
  refine ⟨by decide, by decide, by decide⟩

/-- A state cannot be one leaf away from a silent promotion: whenever no
track is resolved, the in-progress descriptor does not already hold a
track-type 2 together with a track number. -/
def noPending (s : WebmState) : Prop :=
  s.track = none → s.incompleteType = some 2 → s.incompleteNumber = none

theorem updIncomplete_noPending (st : WebmState) (id data : Buf) :
    noPending (updIncomplete st id data) := by
  unfold updIncomplete promoteTrack
  split
  · rename_i n t hn ht
    split
    · intro h1 _
      cases h1
    · rename_i ht2
      intro _ h2
      rw [ht] at h2
      injection h2 with he
      exact absurd he ht2
  · rename_i hno
    intro _ h2
    cases hn : (upd83 (updD7 (updAe st id) id data) id data).incompleteNumber with
    | none => rfl
    | some n => exact (hno n 2 hn h2).elim

theorem readTagLeaf_noPending {ch : CheckHead} {st : WebmState} {data id : Buf}
    {e : Nat} {st' : WebmState} {evs : List WEvent} {r : RTag}
    (h : readTagLeaf ch st data id e = .ok (st', evs, r)) (hs : noPending st) :
    noPending st' := by
  unfold readTagLeaf at h
  have h2 := readTagDispatch_ok_state h
  subst h2
  split
  · exact updIncomplete_noPending st id data
  · exact hs

theorem readTagBody_noPending {ch : CheckHead} {st : WebmState} {chunk : Buf}
    {o2 : Nat} {id : Buf} {dl : Int} {st' : WebmState} {evs : List WEvent} {r : RTag}
    (h : readTagBody ch st chunk o2 id dl = .ok (st', evs, r)) (hs : noPending st) :
    noPending st' := by
  unfold readTagBody at h
  split at h
  · split at h
    · split at h
      · cases h
      · cases h; exact hs
    · cases h; exact hs
  · cases h; exact hs
  · split at h
    · cases h; exact hs
    · split at h
      · split at h
        · split at h <;> cases h
        · cases h
      · exact readTagLeaf_noPending h hs

theorem readTag_noPending {ch : CheckHead} {st : WebmState} {chunk : Buf} {offset : Nat}
    {st' : WebmState} {evs : List WEvent} {r : RTag}
    (h : readTag ch st chunk offset = .ok (st', evs, r)) (hs : noPending st) :
    noPending st' := by
  unfold readTag at h
  split at h
  · cases h; exact hs
  split at h
  · cases h
  rename_i st1 hst1
  obtain ⟨_, _, _, _, _, htr, hn, ht, _⟩ := ebmlCheck_inv hst1
  have hs1 : noPending st1 := by
    intro a b
    rw [hn]
    exact hs (by rw [← htr]; exact a) (by rw [← ht]; exact b)
  split at h
  · cases h; exact hs1
  split at h
  · cases h; exact hs1
  exact readTagBody_noPending h hs1

theorem webmLoop_noPending (ch : CheckHead) (chunk : Buf) : ∀ (n offset : Nat),
    chunk.length - offset ≤ n → ∀ {st st2 : WebmState} {evs : List WEvent} {f : Nat},
    webmLoop ch st chunk offset = .ok (st2, evs, f) → noPending st → noPending st2 := by
  intro n
  induction n with
  | zero =>
    intro offset hn st st2 evs f h hs
    rw [webmLoop_tooShort (readTag_oob (by omega))] at h
    cases h
    exact hs
  | succ n ih =>
    intro offset hn st st2 evs f h hs
    cases hr : readTag ch st chunk offset with
    | error e => rw [webmLoop_err hr] at h; cases h
    | ok v =>
      obtain ⟨st1, evs1, r⟩ := v
      have hs1 := readTag_noPending hr hs
      cases r with
      | tooShort =>
        rw [webmLoop_tooShort hr] at h
        cases h
        exact hs1
      | tag o su =>
        have hb := readTag_tag_bounds hr
        cases su with
        | some u =>
          rw [webmLoop_skip hr (by
            obtain ⟨_, hu, _, _⟩ := readTag_skip_facts hr
            omega)] at h
          cases h
          intro a b
          exact hs1 a b
        | none =>
          rw [webmLoop_tag hr] at h
          cases hl : webmLoop ch st1 chunk o with
          | error e => rw [hl] at h; simp [wAppend] at h
          | ok w =>
            obtain ⟨st2b, evs2, f2⟩ := w
            rw [hl] at h
            simp only [wAppend] at h
            cases h
            exact ih o (by omega) hl hs1

theorem webmGo_noPending {ch : CheckHead} {st : WebmState} {chunk : Buf} {off : Nat}
    {s1 : WebmState} {evs : List WEvent}
    (h : webmGo ch st chunk off = .ok (s1, evs)) (hs : noPending st) : noPending s1 := by
  unfold webmGo at h
  split at h
  · cases h
  · rename_i st2 evs2 f hl
    cases h
    intro a b
    exact webmLoop_noPending ch chunk chunk.length off (by omega) hl hs a b

/-- `_skipUntil` of `some 0` takes the final `else` of `_transform`. -/
theorem webmTransform_zero {ch : CheckHead} {s : WebmState} {nc : Buf}
    (h : s.skipUntil = some 0) :
    webmTransform ch s nc =
      webmGo ch {s with length := s.length + nc.length, remainder := none}
        ((s.remainder.getD []) ++ nc) 0 := by
  unfold webmTransform
  split
  · rename_i u' hu'
    rw [h] at hu'
    injection hu' with he
    subst he
    rw [if_neg (by simp), if_neg (by simp)]
  · rename_i hn
    rw [h] at hn

theorem webmTransform_noPending {ch : CheckHead} {s s1 : WebmState} {nc : Buf}
    {evs : List WEvent} (h : webmTransform ch s nc = .ok (s1, evs))
    (hs : noPending s) : noPending s1 := by
  have hs2 : noPending {s with length := s.length + nc.length, remainder := none} := by
    intro a b
    exact hs a b
  cases hsk : s.skipUntil with
  | none =>
    rw [webmTransform_none hsk] at h
    exact webmGo_noPending h hs2
  | some u =>
    by_cases hu : u = 0
    · subst hu
      rw [webmTransform_zero hsk] at h
      exact webmGo_noPending h hs2
    · by_cases hres : s.length + nc.length > u
      · rw [webmTransform_resume hsk hu hres] at h
        exact webmGo_noPending h (by intro a b; exact hs a b)
      · rw [webmTransform_stay hsk hu hres] at h
        cases h
        intro a b
        exact hs a b

theorem webmCleanup_noPending (s : WebmState) : noPending (webmCleanup s) := by
  intro _ h2
  cases h2

/-- States a `WebmBaseDemuxer` instance can actually be in: fresh, after a
successful `_transform`, or after `cleanup`. -/
inductive WebmReachable : WebmState → Prop
  | init : WebmReachable initWebm
  | step {ch : CheckHead} {s s1 : WebmState} {nc : Buf} {evs : List WEvent} :
      WebmReachable s → webmTransform ch s nc = .ok (s1, evs) → WebmReachable s1
  | clean {s : WebmState} : WebmReachable s → WebmReachable (webmCleanup s)

theorem reachable_noPending {s : WebmState} (h : WebmReachable s) : noPending s := by
  induction h with
  | init => intro _ h2; cases h2
  | step _ ht ih => exact webmTransform_noPending ht ih
  | clean _ _ => exact webmCleanup_noPending _

/-- C6: a simple-block (`a3`) leaf whose body is fully buffered, read in any
reachable state with no resolved track, makes `_readTag` throw the fatal
"No audio track in this webm!" error (the in-progress descriptor cannot
silently promote on the block itself). -/
theorem C6_no_audio_track (ch : CheckHead) (st : WebmState) (chunk : Buf)
    (offset idL szL : Nat) (dl : Int)
    (hreach : WebmReachable st) (htr : st.track = none) (heb : st.ebmlFound = true)
    (hv : vintLength chunk offset = some idL)
    (hid : bslice chunk offset (offset + idL) = [0xa3])
    (hsz : vintLength chunk (offset + idL) = some szL)
    (hex : expandVint chunk (offset + idL) (offset + idL + szL) = some dl)
    (hdl : ¬ dl < 0)
    (hfull : ¬ offset + idL + szL + dl.toNat > chunk.length) :
    readTag ch st chunk offset = .error "No audio track in this webm!" := by
  have hnp := reachable_noPending hreach
  have hc : ebmlCheck st (bslice chunk offset (offset + idL)) = some st := by
    unfold ebmlCheck
    rw [if_pos heb]
  rw [readTag_eq_body hv hc hsz hex, hid]
  rw [readTagBody_eq_leaf (by decide) (by omega) hdl]
  unfold readTagLeaf
  rw [if_pos htr]
  have hpt : promoteTrack st = st := by
    unfold promoteTrack
    split
    · rename_i n t hn ht
      split
      · rename_i ht2
        rw [ht2] at ht
        rw [hnp htr ht] at hn
        cases hn
      · rfl
    · rfl
  have hup : ∀ d : Buf, updIncomplete st [0xa3] d = st := by
    intro d
    unfold updIncomplete updAe updD7 upd83
    rw [if_neg (by decide), if_neg (by decide), if_neg (by decide), hpt]
  rw [hup]
  unfold readTagDispatch
  rw [if_neg (by decide), if_pos (by decide), htr]

/-- A minimal root element: EBML header tag with an empty body. -/
def c6nc : Buf := [0x1a, 0x45, 0xdf, 0xa3, 0x80]

/-- The demuxer state after transforming `c6nc` from fresh. -/
def c6st : WebmState := ⟨some [], 5, 5, none, none, none, none, true⟩

theorem C6_no_audio_track_witness :
    readTag opusCheckHead c6st [0xa3, 0x80] 0 = .error "No audio track in this webm!" := by
  have ht0 : webmTransform opusCheckHead initWebm c6nc = .ok (c6st, []) := by
    rw [webmTransform_none rfl]
    show webmGo opusCheckHead ⟨none, 5, 0, none, none, none, none, false⟩ c6nc 0 =
      .ok (c6st, [])
    have h1 : readTag opusCheckHead ⟨none, 5, 0, none, none, none, none, false⟩ c6nc 0 =
        .ok (⟨none, 5, 0, none, none, none, none, true⟩, [], .tag 5 none) := rfl
    have h2 : readTag opusCheckHead ⟨none, 5, 0, none, none, none, none, true⟩ c6nc 5 =
        .ok (⟨none, 5, 0, none, none, none, none, true⟩, [], .tooShort) := rfl
    have hloop : webmLoop opusCheckHead ⟨none, 5, 0, none, none, none, none, false⟩
        c6nc 0 = .ok (⟨none, 5, 0, none, none, none, none, true⟩, [], 5) := by
      rw [webmLoop_tag h1, webmLoop_tooShort h2, wAppend_nil]
    rw [webmGo_eq_ok hloop]
    rfl
  exact C6_no_audio_track opusCheckHead c6st [0xa3, 0x80] 0 1 1 0
    (WebmReachable.step WebmReachable.init ht0) rfl rfl (by decide) (by decide)
    (by decide) (by decide) (by decide) (by decide)

/-- Root, a first track entry with a track-number leaf (5), a second track
entry with a track-type leaf (2), then a simple block for track 5. -/
def c8buf : Buf :=
  [0x1a, 0x45, 0xdf, 0xa3, 0x80, 0xae, 0x84, 0xd7, 0x81, 0x05, 0xae, 0x83,
    0x83, 0x81, 0x02, 0xa3, 0x85, 0x05, 0x00, 0x00, 0x00, 0xab]

/-- C8: `ae` is registered as a container, so `_readTag` returns right after
its size field with the walker state untouched — the `_incompleteTrack`
reset branch can never run; consequently a track number read under one
track entry and a track-type 2 read under a later track entry merge into
the single promoted audio track, whose blocks are then emitted. -/
theorem C8_ae_container_no_reset :
    tagKind [0xae] = some true ∧
    (∀ (ch : CheckHead) (st st1 : WebmState) (chunk : Buf) (offset idL szL : Nat)
      (dl : Int),
      vintLength chunk offset = some idL →
      bslice chunk offset (offset + idL) = [0xae] →
      ebmlCheck st (bslice chunk offset (offset + idL)) = some st1 →
      vintLength chunk (offset + idL) = some szL →
      expandVint chunk (offset + idL) (offset + idL + szL) = some dl → ¬ dl < 0 →
      readTag ch st chunk offset = .ok (st1, [], .tag (offset + idL + szL) none)) ∧
    webmLoop opusCheckHead ⟨none, 22, 0, none, none, none, none, false⟩ c8buf 0 =
      .ok (⟨none, 22, 0, none, some (5, 2), some 5, some 2, true⟩,
        [WEvent.packet [0xab]], 22) := by
  refine ⟨by decide, ?_, ?_⟩
  · intro ch st st1 chunk offset idL szL dl hv hid hc hsz hex hdl
    rw [readTag_eq_body hv hc hsz hex, hid]
    unfold readTagBody
    rw [show tagKind [0xae] = some true from by decide]
  · have h1 : readTag opusCheckHead ⟨none, 22, 0, none, none, none, none, false⟩
        c8buf 0 =
        .ok (⟨none, 22, 0, none, none, none, none, true⟩, [], .tag 5 none) := rfl
    have h2 : readTag opusCheckHead ⟨none, 22, 0, none, none, none, none, true⟩
        c8buf 5 =
        .ok (⟨none, 22, 0, none, none, none, none, true⟩, [], .tag 7 none) := rfl
    have h3 : readTag opusCheckHead ⟨none, 22, 0, none, none, none, none, true⟩
        c8buf 7 =
        .ok (⟨none, 22, 0, none, none, some 5, none, true⟩, [], .tag 10 none) := rfl
    have h4 : readTag opusCheckHead ⟨none, 22, 0, none, none, some 5, none, true⟩
        c8buf 10 =
        .ok (⟨none, 22, 0, none, none, some 5, none, true⟩, [], .tag 12 none) := rfl
    have h5 : readTag opusCheckHead ⟨none, 22, 0, none, none, some 5, none, true⟩
        c8buf 12 =
        .ok (⟨none, 22, 0, none, some (5, 2), some 5, some 2, true⟩, [],
          .tag 15 none) := rfl
    have h6 : readTag opusCheckHead ⟨none, 22, 0, none, some (5, 2), some 5, some 2, true⟩
        c8buf 15 =
        .ok (⟨none, 22, 0, none, some (5, 2), some 5, some 2, true⟩,
          [WEvent.packet [0xab]], .tag 22 none) := rfl
    have h7 : readTag opusCheckHead ⟨none, 22, 0, none, some (5, 2), some 5, some 2, true⟩
        c8buf 22 =
        .ok (⟨none, 22, 0, none, some (5, 2), some 5, some 2, true⟩, [],
          .tooShort) := rfl
    rw [webmLoop_tag h1, webmLoop_tag h2, webmLoop_tag h3, webmLoop_tag h4,
      webmLoop_tag h5, webmLoop_tag h6, webmLoop_tooShort h7]
    simp [wAppend]

theorem C8_ae_container_no_reset_witness :
    readTag opusCheckHead ⟨none, 2, 0, none, none, some 9, some 2, true⟩ [0xae, 0x84] 0 =
      .ok (⟨none, 2, 0, none, none, some 9, some 2, true⟩, [], .tag 2 none) := by
  have h := C8_ae_container_no_reset.2.1 opusCheckHead
    ⟨none, 2, 0, none, none, some 9, some 2, true⟩
    ⟨none, 2, 0, none, none, some 9, some 2, true⟩ [0xae, 0x84] 0 1 1 4
    (by decide) (by decide) (by decide) (by decide) (by decide) (by decide)
  exact h

end Prism
